import Mathlib

/-!
Verification of the `may.py` command dispatcher.

Python strings are embedded as `List Char` (a Python `str` is a sequence of
code points).  Python code that can raise is embedded as `Except PyError`.
Each definition below is a direct translation of the function of the same
name in `may.py`.
-/

deriving instance DecidableEq for Except

namespace May

/-- Exceptions that the embedded code can raise.  `moduleNotFound` models
Python's `ModuleNotFoundError`, `indexError` models `IndexError`; `other`
stands for any other exception escaping a dynamically loaded module. -/
inductive PyError where
  | moduleNotFound
  | indexError
  | other
deriving DecidableEq, Repr

/-- A loadable Python module, as seen by the dispatcher: it exposes an
optional documentation attribute (`__doc__`, `None` modelled as `none`). -/
structure Module where
  doc : Option (List Char)
deriving DecidableEq, Repr

/-- A directory entry as reported by `os.listdir` plus `os.path.isfile`. -/
structure DirEntry where
  name : List Char
  isFile : Bool
deriving DecidableEq, Repr

/-- The portion of a string before the first occurrence of the literal
delimiter `===`; the whole string when the delimiter does not occur.
This is Python's `string.split("===")[0]`. -/
def takeBeforeDelim : List Char → List Char
  | [] => []
  | '=' :: '=' :: '=' :: _ => []
  | c :: rest => c :: takeBeforeDelim rest

/-- The normalization block of `extract_doc_title` applied to the
pre-delimiter portion `p`: if `p` is non-empty, drop one leading newline
when present (`re.match("^\n", ...)` then `p[1:]`), then test `p[-1]`,
which raises `IndexError` when the string has become empty, and drop the
trailing newline when present (`p[:-1]`). -/
def strip_title (p : List Char) : Except PyError (List Char) :=
  if p.length > 0 then
    let q := if p.head? = some '\n' then p.tail else p
    match q.getLast? with
    | none => .error .indexError
    | some c => .ok (if c = '\n' then q.dropLast else q)
  else .ok p

/-- `extract_doc_title` from `may.py`: split on `===`, keep the first part,
strip one leading and one trailing newline from it when non-empty. -/
def extract_doc_title (s : List Char) : Except PyError (List Char) :=
  strip_title (takeBeforeDelim s)

/-- Splitting a string on every occurrence of a separator character, with
Python `str.split(sep)` semantics: `"".split(" ") = [""]`, adjacent
separators produce empty fields. -/
def splitOnChar (sep : Char) : List Char → List (List Char)
  | [] => [[]]
  | c :: rest =>
    if c = sep then [] :: splitOnChar sep rest
    else
      match splitOnChar sep rest with
      | [] => [[c]]
      | w :: ws => (c :: w) :: ws

/-- Joining a list of strings with single spaces (`" ".join(...)`). -/
def joinSpace : List (List Char) → List Char
  | [] => []
  | [l] => l
  | l :: ls => l ++ ' ' :: joinSpace ls

/-- The column-width constant `INLINE_DOC_CHARS` of `may.py`. -/
def INLINE_DOC_CHARS : Nat := 70

/-- The `for word in text.split(" ")` loop of `multiple_lines`, carried out
on the remaining words with the accumulated `lines` and the current `line`
as explicit state. -/
def wrap_aux (line_length : Nat) :
    List (List Char) → List Char → List (List Char) → List (List Char) × List Char
  | lines, line, [] => (lines, line)
  | lines, line, word :: rest =>
    let candidate := if line = [] then word else line ++ ' ' :: word
    if candidate.length < line_length then wrap_aux line_length lines candidate rest
    else wrap_aux line_length (lines ++ [line]) word rest

/-- `multiple_lines` from `may.py`: greedy word-wrap of `text` at
`line_length`, splitting on single spaces; a trailing non-empty `line` is
appended, and an empty result list is replaced by `[""]`. -/
def multiple_lines (text : List Char) (line_length : Nat) : List (List Char) :=
  let p := wrap_aux line_length [] [] (splitOnChar ' ' text)
  let lines := if p.2.length > 0 then p.1 ++ [p.2] else p.1
  if lines.length = 0 then [[]] else lines

/-- `longest_text` from `may.py`: length of the longest string in a list,
`0` for the empty list. -/
def longest_text (text_list : List (List Char)) : Nat :=
  text_list.foldl (fun max_length text =>
    if max_length < text.length then text.length else max_length) 0

/-- `adjusted_legth_text` from `may.py`: right-pad `text` with spaces up to
`length`; return `text` unchanged when it is already at least that long. -/
def adjusted_legth_text (text : List Char) (length : Nat) : List Char :=
  if text.length < length then text ++ List.replicate (length - text.length) ' ' else text

/-- Model of `re.match("(.+)\.py", item)`, returning the index just past
group 1 of the match when there is one.  `re.match` anchors at the start
only; the greedy `(.+)` (which cannot cross a newline) makes group 1 the
longest non-empty newline-free prefix that is immediately followed by the
three characters `.py`.  This searches the candidate group-1 lengths from
the longest down. -/
def pyMatchAux (s : List Char) : Nat → Option Nat
  | 0 => none
  | k + 1 =>
    if (s.drop (k + 1)).take 3 = ['.', 'p', 'y'] ∧ '\n' ∉ s.take (k + 1) then some (k + 1)
    else pyMatchAux s k

/-- Group 1 of `re.match("(.+)\.py", item)`, or `none` when the pattern
does not match. -/
def pyMatch (s : List Char) : Option (List Char) :=
  (pyMatchAux s s.length).map fun k => s.take k

/-- `get_import_names` from `may.py` (with its `@iterated` wrapper), over a
directory listing: skip `may.bat`, `may.py` and `__pycache__`; for a file,
yield group 1 of the `(.+)\.py` match when the regex matches; for any
other entry yield its full name. -/
def get_import_names (listing : List DirEntry) : List (List Char) :=
  listing.filterMap fun item =>
    if item.name = "may.bat".toList ∨ item.name = "may.py".toList ∨
        item.name = "__pycache__".toList then none
    else if item.isFile then pyMatch item.name
    else some item.name

/-- A script descriptor as produced by `get_quick_doc`: the dictionary
with `name` and `title` keys. -/
structure Descriptor where
  name : List Char
  title : List Char
deriving DecidableEq, Repr

/-- The body of the `try` block in `get_quick_doc` for one name: load the
module (`__import__(name)`), read its `__doc__` (`None` becomes `""`), and
extract the doc title.  Any raised exception is the `Except.error`. -/
def try_import_doc (env : List Char → Except PyError Module) (name : List Char) :
    Except PyError Descriptor :=
  match env name with
  | .error e => .error e
  | .ok m =>
    match extract_doc_title (m.doc.getD []) with
    | .error e => .error e
    | .ok t => .ok ⟨name, t⟩

/-- `get_quick_doc` from `may.py` (with its `@iterated` wrapper): one
descriptor per name, `ModuleNotFoundError` silently skips the name, any
other exception aborts the whole listing. -/
def get_quick_doc (env : List Char → Except PyError Module) :
    List (List Char) → Except PyError (List Descriptor)
  | [] => .ok []
  | name :: rest =>
    match try_import_doc env name with
    | .ok d =>
      match get_quick_doc env rest with
      | .ok ds => .ok (d :: ds)
      | .error e => .error e
    | .error .moduleNotFound => get_quick_doc env rest
    | .error e => .error e

/-- One descriptor's contribution to `available_scripts`: the inner
`for i, line in enumerate(multiple_lines(item['title'], INLINE_DOC_CHARS))`
loop, each iteration appending `" {}\t{}\n"` formatted with the padded name
(first line) or padded empty string (continuation lines) and the segment. -/
def item_block (item : Descriptor) (max_length : Nat) : List Char :=
  ((multiple_lines item.title INLINE_DOC_CHARS).enum.map fun p =>
    if p.1 = 0 then
      [' '] ++ adjusted_legth_text item.name max_length ++ ['\t'] ++ p.2 ++ ['\n']
    else
      [' '] ++ adjusted_legth_text [] max_length ++ ['\t'] ++ p.2 ++ ['\n']).flatten

/-- `available_scripts` from `may.py`, over an abstract module environment
`env` and directory listing `listing` (in the source these are the real
filesystem and `__import__`). -/
def available_scripts (env : List Char → Except PyError Module)
    (listing : List DirEntry) : Except PyError (List Char) :=
  let script_names := get_import_names listing
  let max_length := longest_text script_names
  match get_quick_doc env script_names with
  | .error e => .error e
  | .ok data => .ok (data.foldl (fun res item => res ++ item_block item max_length) [])

/-- The part of the `general_help` banner before the `{}` placeholder. -/
def helpHeader : List Char :=
  ("This tool is a generic script manager that acts as a controller of scripts of different\nkinds.\n may <script name> --help\tQuick help and parameters description\n may manual <script name>\tRead the full manual of this script\n\t\nBelow, a list of the available scripts:\n\n").toList

/-- The part of the `general_help` banner after the `{}` placeholder. -/
def helpFooter : List Char := "\n\n".toList

/-- `general_help` from `may.py`: the static banner with the scripts
listing spliced in. -/
def general_help (env : List Char → Except PyError Module)
    (listing : List DirEntry) : Except PyError (List Char) :=
  match available_scripts env listing with
  | .error e => .error e
  | .ok s => .ok (helpHeader ++ s ++ helpFooter)

/-- Observable actions of the dispatcher: printing a string (`print` adds
its own newline), or invoking a loaded script's `main` with an argument
list. -/
inductive Event where
  | print (s : List Char)
  | callMain (name : List Char) (args : List (List Char))
deriving DecidableEq, Repr

/-- The fixed error message printed when a script cannot be resolved. -/
def errMsg : List Char := "ERROR: Script not found".toList

/-- `main` from `may.py`, over an abstract module environment and
directory listing; `argv` is the raw `sys.argv` (program name included).
No arguments: print the general help.  `manual <name>` with exactly three
raw arguments: print the target's raw `__doc__` (falsy `__doc__` becomes
`""`), with `ModuleNotFoundError` converted to the fixed error message.
Otherwise: load `argv[1]` and call its `main` with `argv[2:]`, again
converting `ModuleNotFoundError` to the fixed error message; other
exceptions propagate. -/
def main (env : List Char → Except PyError Module) (listing : List DirEntry)
    (argv : List (List Char)) : Except PyError (List Event) :=
  if argv.length ≤ 1 then
    match general_help env listing with
    | .error e => .error e
    | .ok s => .ok [.print s]
  else
    if argv.getD 1 [] = "manual".toList ∧ argv.length = 3 then
      match env (argv.getD 2 []) with
      | .ok m => .ok [.print (m.doc.getD [])]
      | .error .moduleNotFound => .ok [.print errMsg]
      | .error e => .error e
    else
      match env (argv.getD 1 []) with
      | .ok _ => .ok [.callMain (argv.getD 1 []) (argv.drop 2)]
      | .error .moduleNotFound => .ok [.print errMsg]
      | .error e => .error e

/-- Modelled from the spec (claim C7's wording): the portion before the
first `===`, with, when non-empty, exactly one leading newline removed if
present and exactly one trailing newline removed if present. -/
def extract_title_spec (s : List Char) : List Char :=
  let p := takeBeforeDelim s
  if p = [] then p
  else
    let q := if p.head? = some '\n' then p.tail else p
    if q.getLast? = some '\n' then q.dropLast else q

/-- Modelled from the spec (claim C10's wording): the lines of the help
listing, without their terminating newlines.  The first wrapped segment of
a descriptor is one space, the name padded to the longest enumerated name,
a tab, then the segment; continuation segments replace the name by an
all-blank field of the same width. -/
def help_listing_lines (listing : List DirEntry) (ds : List Descriptor) :
    List (List Char) :=
  ds.flatMap fun d =>
    (multiple_lines d.title INLINE_DOC_CHARS).enum.map fun p =>
      if p.1 = 0 then
        [' '] ++ adjusted_legth_text d.name (longest_text (get_import_names listing)) ++
          ['\t'] ++ p.2
      else
        [' '] ++ adjusted_legth_text [] (longest_text (get_import_names listing)) ++
          ['\t'] ++ p.2

/-- Whether an attempt of the `try` body of `get_quick_doc` either
succeeded or failed with exactly `ModuleNotFoundError`. -/
def benign : Except PyError Descriptor → Bool
  | .ok _ => true
  | .error .moduleNotFound => true
  | .error _ => false

/-- A concrete module environment where only `echo` is loadable. -/
def envEcho : List Char → Except PyError Module := fun n =>
  if n = "echo".toList then .ok ⟨some "Echo\n===\ndetails".toList⟩
  else .error .moduleNotFound

/-- A concrete module environment where only `alpha` is loadable. -/
def envQuick : List Char → Except PyError Module := fun n =>
  if n = "alpha".toList then .ok ⟨some "TitleA".toList⟩
  else .error .moduleNotFound

/-- A concrete module environment where only `foo` is loadable. -/
def envFoo : List Char → Except PyError Module := fun n =>
  if n = "foo".toList then .ok ⟨some "T".toList⟩
  else .error .moduleNotFound

/-- A concrete directory listing holding the single file `foo.py`. -/
def listingFoo : List DirEntry := [⟨"foo.py".toList, true⟩]

/-! ### Claims C1 and C7: the doc-title extractor -/

/-- Claim C1 (code_bug evidence): `extract_doc_title` is not total.  On the
input `"\n"` the pre-delimiter portion is `"\n"`; it is non-empty, the
leading newline is stripped leaving the empty string, and the subsequent
`doc_title[-1]` access raises `IndexError`. -/
theorem extract_doc_title_newline_raises :
    extract_doc_title ['\n'] = .error .indexError := by decide

/-- Claim C7 (counterexample): on the input `"\n"` the extractor does not
return the empty string that the claim prescribes (it raises instead). -/
theorem extract_doc_title_newline_cx :
    ¬ (extract_doc_title ['\n'] = .ok []) := by decide

/-- Claim C7 (amended): for every input string whose pre-delimiter portion
is not exactly a lone newline, `extract_doc_title` returns the portion of
the string before the first `===`, with, when that portion is non-empty,
exactly one leading newline removed if present and exactly one trailing
newline removed if present. -/
theorem extract_doc_title_spec_eq (s : List Char)
    (h : takeBeforeDelim s ≠ ['\n']) :
    extract_doc_title s = .ok (extract_title_spec s) := by
  unfold extract_doc_title extract_title_spec strip_title
  revert h
  generalize takeBeforeDelim s = p
  intro h
  cases p with
  | nil => simp
  | cons c rest =>
    by_cases hc : c = '\n'
    · subst hc
      cases rest with
      | nil => exact absurd rfl h
      | cons d ds =>
        simp only [List.length_cons, Nat.zero_lt_succ, if_pos, List.head?_cons,
          Option.some.injEq, if_true, List.tail_cons, reduceIte,
          List.cons_ne_nil, not_false_iff, gt_iff_lt]
        cases hq : (d :: ds).getLast? with
        | none => simp at hq
        | some x =>
          by_cases hx : x = '\n' <;> simp [hq, hx]
    · cases hq : (c :: rest).getLast? with
      | none => simp at hq
      | some x =>
        by_cases hx : x = '\n' <;> simp [hc, hq, hx]

/-- Witness for claim C7's theorem at the spec's own example input. -/
theorem extract_doc_title_spec_eq_witness :
    extract_doc_title ("\nTitle\n===x".toList) = .ok ("Title".toList) :=
  (extract_doc_title_spec_eq ("\nTitle\n===x".toList) (by decide)).trans (by decide)

/-! ### Claim C5: the script-name enumerator -/

/-- Claim C5 (code_bug evidence): the regex `(.+)\.py` in
`get_import_names` is unanchored at the end, so the regular file
`foo.pyc` — which is not of the form `<stem>.py` — still matches, and the
enumerator yields `foo` for it instead of yielding nothing. -/
theorem get_import_names_pyc :
    get_import_names [⟨"foo.pyc".toList, true⟩] = ["foo".toList] := by decide

/-! ### Claim C8: the padding operation -/

/-- Claim C8: `adjusted_legth_text s w` has length `max (len s) w`, starts
with `s`, pads on the right with spaces only, and returns `s` unchanged
(no truncation) when `len s` is at or beyond `w`. -/
theorem adjusted_legth_text_spec (s : List Char) (w : Nat) :
    (adjusted_legth_text s w).length = max s.length w ∧
    (adjusted_legth_text s w).take s.length = s ∧
    (adjusted_legth_text s w).drop s.length = List.replicate (w - s.length) ' ' ∧
    (w ≤ s.length → adjusted_legth_text s w = s) := by
  unfold adjusted_legth_text
  by_cases h : s.length < w
  · rw [if_pos h]
    refine ⟨?_, ?_, ?_, fun hw => absurd hw (by omega)⟩
    · simp only [List.length_append, List.length_replicate]
      omega
    · exact List.take_left s _
    · exact List.drop_left s _
  · rw [if_neg h]
    refine ⟨by omega, List.take_length s, ?_, fun _ => rfl⟩
    have hw : w - s.length = 0 := by omega
    simp [List.drop_length, hw]

/-- Witness for claim C8's theorem: a string already beyond the width is
returned unchanged. -/
theorem adjusted_legth_text_spec_witness :
    adjusted_legth_text ['a', 'b', 'c'] 2 = ['a', 'b', 'c'] :=
  (adjusted_legth_text_spec ['a', 'b', 'c'] 2).2.2.2 (by decide)

/-! ### Claim C9: wrapping the empty string -/

/-- Claim C9: for every width `w`, `multiple_lines "" w` is the
one-element list holding the empty string, never the empty list. -/
theorem multiple_lines_empty (w : Nat) : multiple_lines [] w = [[]] := by
  unfold multiple_lines splitOnChar
  by_cases h : 0 < w <;> simp [wrap_aux, h]

/-! ### Claims C3 and C4: the dispatcher -/

/-- Claim C3: whenever there is at least one user argument and the manual
pattern does not match (the first user argument is not `manual`, or the
raw argument count is not exactly three — including `manual` followed by
two or more arguments), the dispatcher loads the first user argument as a
module and, on success, calls its `main` with exactly the raw argument
list minus its first two entries. -/
theorem main_dispatch_run (env : List Char → Except PyError Module)
    (listing : List DirEntry) (argv : List (List Char)) (m : Module)
    (h2 : 2 ≤ argv.length)
    (hnm : ¬(argv.getD 1 [] = "manual".toList ∧ argv.length = 3))
    (hm : env (argv.getD 1 []) = .ok m) :
    main env listing argv = .ok [.callMain (argv.getD 1 []) (argv.drop 2)] := by
  unfold main
  rw [if_neg (by omega), if_neg hnm, hm]

/-- Witness for claim C3's theorem: invoking with user arguments
`["echo", "hello"]` in an environment where `echo` is loadable makes the
dispatcher call `echo`'s entry point with exactly `["hello"]`. -/
theorem main_dispatch_run_witness :
    main envEcho [] ["may".toList, "echo".toList, "hello".toList] =
      .ok [.callMain ("echo".toList) ["hello".toList]] :=
  main_dispatch_run envEcho [] ["may".toList, "echo".toList, "hello".toList]
    ⟨some "Echo\n===\ndetails".toList⟩ (by decide) (by decide) (by decide)

/-- Claim C4: `ModuleNotFoundError` is converted to the printed message
`ERROR: Script not found` (and not propagated) at the two dispatcher
resolution sites.  In manual mode with argument list
`[prog, "manual", name]`: when `name` does not resolve, the output is
exactly the fixed message and nothing else; when it resolves, the raw,
unprocessed documentation attribute is printed, or an empty line when the
module has none.  In run mode, a failed resolution of the first user
argument likewise prints exactly the fixed message. -/
theorem main_not_found_handling (env : List Char → Except PyError Module)
    (listing : List DirEntry) (argv : List (List Char)) :
    (∀ prog name, argv = [prog, "manual".toList, name] →
      (env name = .error .moduleNotFound →
        main env listing argv = .ok [.print errMsg]) ∧
      (∀ m, env name = .ok m →
        main env listing argv = .ok [.print (m.doc.getD [])])) ∧
    (2 ≤ argv.length → ¬(argv.getD 1 [] = "manual".toList ∧ argv.length = 3) →
      env (argv.getD 1 []) = .error .moduleNotFound →
      main env listing argv = .ok [.print errMsg]) := by
  constructor
  · intro prog name hargv
    subst hargv
    constructor
    · intro henv
      unfold main
      rw [if_neg (by simp), if_pos (by simp)]
      simp only [List.getD_cons_succ, List.getD_cons_zero]
      rw [henv]
    · intro m henv
      unfold main
      rw [if_neg (by simp), if_pos (by simp)]
      simp only [List.getD_cons_succ, List.getD_cons_zero]
      rw [henv]
  · intro h2 hnm henv
    unfold main
    rw [if_neg (by omega), if_neg hnm, henv]

/-- Witness for claim C4's theorem: invoking with user arguments
`["manual", "doesnotexist"]` prints exactly the fixed not-found message. -/
theorem main_not_found_handling_witness :
    main envEcho [] ["may".toList, "manual".toList, "doesnotexist".toList] =
      .ok [.print errMsg] :=
  ((main_not_found_handling envEcho []
        ["may".toList, "manual".toList, "doesnotexist".toList]).1
      ("may".toList) ("doesnotexist".toList) rfl).1 (by decide)

/-! ### Claim C6: the quick-doc collector -/

/-- Claim C6: `get_quick_doc` emits one `{name, title}` descriptor per
name whose `try` body succeeds, silently omits exactly those names whose
resolution fails with `ModuleNotFoundError` (preserving the input order
among the emitted descriptors), and lets any other failure propagate,
aborting the whole listing. -/
theorem get_quick_doc_spec (env : List Char → Except PyError Module) :
    (∀ names : List (List Char),
      (∀ n ∈ names, benign (try_import_doc env n) = true) →
      get_quick_doc env names =
        .ok (names.filterMap fun n => (try_import_doc env n).toOption)) ∧
    (∀ (l1 : List (List Char)) (n : List Char) (l2 : List (List Char)) (e : PyError),
      (∀ u ∈ l1, benign (try_import_doc env u) = true) →
      try_import_doc env n = .error e → e ≠ .moduleNotFound →
      get_quick_doc env (l1 ++ n :: l2) = .error e) := by
  constructor
  · intro names
    induction names with
    | nil => intro _; rfl
    | cons n rest ih =>
      intro h
      have hn := h n (by simp)
      have hrest : ∀ u ∈ rest, benign (try_import_doc env u) = true :=
        fun u hu => h u (by simp [hu])
      cases htry : try_import_doc env n with
      | ok d =>
        simp [get_quick_doc, htry, ih hrest, List.filterMap_cons, Except.toOption]
      | error e =>
        have he : e = .moduleNotFound := by
          rw [htry] at hn
          cases e <;> simp [benign] at hn ⊢
        subst he
        simp [get_quick_doc, htry, ih hrest, List.filterMap_cons, Except.toOption]
  · intro l1 n l2 e
    induction l1 with
    | nil =>
      intro _ hn hne
      simp only [List.nil_append]
      unfold get_quick_doc
      rw [hn]
      cases e with
      | moduleNotFound => exact absurd rfl hne
      | indexError => rfl
      | other => rfl
    | cons u rest ih =>
      intro h1 hn hne
      have hu := h1 u (by simp)
      have hrest : ∀ v ∈ rest, benign (try_import_doc env v) = true :=
        fun v hv => h1 v (by simp [hv])
      cases htry : try_import_doc env u with
      | ok d =>
        simp [get_quick_doc, htry, ih hrest hn hne]
      | error eu =>
        have : eu = .moduleNotFound := by
          rw [htry] at hu
          cases eu <;> simp [benign] at hu ⊢
        subst this
        simp [get_quick_doc, htry, ih hrest hn hne]

/-- Witness for claim C6's theorem: `alpha` resolves with title `TitleA`,
`beta` fails with `ModuleNotFoundError` and is silently skipped. -/
theorem get_quick_doc_spec_witness :
    get_quick_doc envQuick ["alpha".toList, "beta".toList] =
      .ok [⟨"alpha".toList, "TitleA".toList⟩] :=
  ((get_quick_doc_spec envQuick).1 ["alpha".toList, "beta".toList]
      (by decide)).trans (by decide)

/-! ### Claim C2: the join of the wrapped lines -/

theorem splitOnChar_ne_nil (sep : Char) (s : List Char) : splitOnChar sep s ≠ [] := by
  cases s with
  | nil => simp [splitOnChar]
  | cons c rest =>
    simp only [splitOnChar]
    split
    · simp
    · split <;> simp

theorem joinSpace_cons_cons (a b : List Char) (ls : List (List Char)) :
    joinSpace (a :: b :: ls) = a ++ ' ' :: joinSpace (b :: ls) := rfl

theorem joinSpace_cons_head (c : Char) (h : List Char) (t : List (List Char)) :
    joinSpace ((c :: h) :: t) = c :: joinSpace (h :: t) := by
  cases t <;> rfl

theorem joinSpace_splitOnChar (s : List Char) :
    joinSpace (splitOnChar ' ' s) = s := by
  induction s with
  | nil => rfl
  | cons c rest ih =>
    simp only [splitOnChar]
    by_cases hc : c = ' '
    · rw [if_pos hc]
      cases hs : splitOnChar ' ' rest with
      | nil => exact absurd hs (splitOnChar_ne_nil ' ' rest)
      | cons h t =>
        rw [joinSpace_cons_cons, hc]
        rw [hs] at ih
        simp [ih]
    · rw [if_neg hc]
      cases hs : splitOnChar ' ' rest with
      | nil => exact absurd hs (splitOnChar_ne_nil ' ' rest)
      | cons h t =>
        rw [joinSpace_cons_head]
        rw [hs] at ih
        rw [ih]

theorem joinSpace_append (xs ys : List (List Char)) (hx : xs ≠ []) (hy : ys ≠ []) :
    joinSpace (xs ++ ys) = joinSpace xs ++ ' ' :: joinSpace ys := by
  induction xs with
  | nil => exact absurd rfl hx
  | cons a xs ih =>
    cases xs with
    | nil =>
      cases ys with
      | nil => exact absurd rfl hy
      | cons b t => simp [joinSpace_cons_cons, joinSpace]
    | cons a2 xs2 =>
      have step := ih (by simp)
      simp only [List.cons_append] at step ⊢
      rw [joinSpace_cons_cons, step, joinSpace_cons_cons, List.append_assoc]
      rfl

theorem joinSpace_merge (line word : List Char) (rest : List (List Char)) :
    joinSpace ((line ++ ' ' :: word) :: rest) = joinSpace (line :: word :: rest) := by
  cases rest with
  | nil => rfl
  | cons r rs =>
    rw [joinSpace_cons_cons, joinSpace_cons_cons, joinSpace_cons_cons,
      List.append_assoc]
    rfl

theorem joinSpace_merge_mid (lines : List (List Char)) (line word : List Char)
    (rest : List (List Char)) :
    joinSpace (lines ++ (line ++ ' ' :: word) :: rest) =
      joinSpace (lines ++ line :: word :: rest) := by
  cases hl : lines with
  | nil => simpa using joinSpace_merge line word rest
  | cons a as =>
    rw [joinSpace_append (a :: as) _ (by simp) (by simp),
      joinSpace_append (a :: as) _ (by simp) (by simp), joinSpace_merge]

/-- The invariant of the word loop of `multiple_lines`: as long as the
current line is non-empty and every remaining word is non-empty, the final
state still joins (with single spaces) to the join of the state it started
from. -/
theorem wrap_aux_join (w : Nat) (ws : List (List Char)) :
    ∀ (lines : List (List Char)) (line : List Char), line ≠ [] →
    (∀ u ∈ ws, u ≠ []) →
    (wrap_aux w lines line ws).2 ≠ [] ∧
    joinSpace ((wrap_aux w lines line ws).1 ++ [(wrap_aux w lines line ws).2]) =
      joinSpace (lines ++ line :: ws) := by
  induction ws with
  | nil => intro lines line hl _; exact ⟨hl, rfl⟩
  | cons word rest ih =>
    intro lines line hl hw
    have hword : word ≠ [] := hw word (by simp)
    have hrest : ∀ u ∈ rest, u ≠ [] := fun u hu => hw u (by simp [hu])
    simp only [wrap_aux, if_neg hl]
    split
    · have hcand : line ++ ' ' :: word ≠ [] := by simp
      obtain ⟨h1, h2⟩ := ih lines (line ++ ' ' :: word) hcand hrest
      exact ⟨h1, by rw [h2, joinSpace_merge_mid]⟩
    · obtain ⟨h1, h2⟩ := ih (lines ++ [line]) word hword hrest
      refine ⟨h1, ?_⟩
      rw [h2, List.append_assoc]
      rfl

/-- Claim C2 (counterexample): for the non-empty text `"a"` and width
`w = 1`, joining `multiple_lines "a" 1` with single spaces yields `" a"`,
not `"a"`: the first word reaches the width, so the loop flushes the
still-empty current line as an extra leading element. -/
theorem multiple_lines_join_cx :
    ¬ (joinSpace (multiple_lines ['a'] 1) = ['a']) := by decide

/-- Claim C2 (amended): for every text all of whose space-separated words
are non-empty (no leading, trailing, or consecutive spaces — in particular
the text is non-empty) and whose first word is strictly shorter than the
width `w`, joining the list returned by `multiple_lines text w` with
single spaces yields `text` exactly. -/
theorem multiple_lines_join (text : List Char) (w : Nat)
    (hwords : ∀ u ∈ splitOnChar ' ' text, u ≠ [])
    (hfirst : (splitOnChar ' ' text).headI.length < w) :
    joinSpace (multiple_lines text w) = text := by
  obtain ⟨w0, rest, hsplit⟩ : ∃ w0 rest, splitOnChar ' ' text = w0 :: rest := by
    cases hs : splitOnChar ' ' text with
    | nil => exact absurd hs (splitOnChar_ne_nil ' ' text)
    | cons a l => exact ⟨a, l, rfl⟩
  have hw0 : w0 ≠ [] := by
    refine hwords w0 ?_
    rw [hsplit]
    simp
  have hrest : ∀ u ∈ rest, u ≠ [] := by
    intro u hu
    refine hwords u ?_
    rw [hsplit]
    simp [hu]
  rw [hsplit] at hfirst
  simp only [List.headI] at hfirst
  unfold multiple_lines
  rw [hsplit]
  have hstep : wrap_aux w [] [] (w0 :: rest) = wrap_aux w [] w0 rest := by
    simp [wrap_aux, hfirst]
  rw [hstep]
  obtain ⟨h1, h2⟩ := wrap_aux_join w rest [] w0 hw0 hrest
  have hlen : (wrap_aux w [] w0 rest).2.length > 0 := List.length_pos.mpr h1
  have hres : (let p := wrap_aux w [] w0 rest
      let lines := if p.2.length > 0 then p.1 ++ [p.2] else p.1
      if lines.length = 0 then [[]] else lines) =
      (wrap_aux w [] w0 rest).1 ++ [(wrap_aux w [] w0 rest).2] := by
    simp only [if_pos hlen]
    rw [if_neg (by simp)]
  rw [hres, h2]
  simp only [List.nil_append]
  rw [← hsplit, joinSpace_splitOnChar]

/-- Witness for claim C2's theorem at the text `"ab cd"` and width 70. -/
theorem multiple_lines_join_witness :
    joinSpace (multiple_lines ("ab cd".toList) 70) = "ab cd".toList :=
  multiple_lines_join ("ab cd".toList) 70 (by decide) (by decide)

/-! ### Claim C10: the help-listing format -/

theorem foldl_append_flatten {α β : Type} (f : α → List β) (l : List α) :
    ∀ init, l.foldl (fun res a => res ++ f a) init = init ++ (l.map f).flatten := by
  induction l with
  | nil => intro init; simp
  | cons a l ih => intro init; simp [ih, List.append_assoc]

theorem item_block_eq (d : Descriptor) (M : Nat) :
    item_block d M =
      (((multiple_lines d.title INLINE_DOC_CHARS).enum.map fun p =>
        if p.1 = 0 then [' '] ++ adjusted_legth_text d.name M ++ ['\t'] ++ p.2
        else [' '] ++ adjusted_legth_text [] M ++ ['\t'] ++ p.2).map
          fun l => l ++ ['\n']).flatten := by
  unfold item_block
  rw [List.map_map]
  congr 1
  apply List.map_congr_left
  intro p _
  by_cases h0 : p.1 = 0 <;> simp [h0, List.append_assoc]

theorem help_flatten (listing : List DirEntry) (ds : List Descriptor) :
    (ds.map fun d => item_block d (longest_text (get_import_names listing))).flatten =
      ((help_listing_lines listing ds).map fun l => l ++ ['\n']).flatten := by
  induction ds with
  | nil => rfl
  | cons d ds ih =>
    simp only [List.map_cons, List.flatten_cons, help_listing_lines,
      List.flatMap_cons, List.map_append, List.flatten_append] at ih ⊢
    rw [item_block_eq, ih]

/-- Claim C10: when the quick-doc collection succeeds, the help listing is
exactly the newline-terminated rendering of `help_listing_lines`, whose
first segment per descriptor is one space, the name padded to the longest
enumerated name, a tab, then the segment, and whose continuation segments
replace the name by an all-blank field of the same width; in particular
every line of the listing begins with a single space character. -/
theorem available_scripts_format (env : List Char → Except PyError Module)
    (listing : List DirEntry) (ds : List Descriptor)
    (h : get_quick_doc env (get_import_names listing) = .ok ds) :
    available_scripts env listing =
      .ok (((help_listing_lines listing ds).map fun l => l ++ ['\n']).flatten) ∧
    ∀ l ∈ help_listing_lines listing ds, l.head? = some ' ' := by
  constructor
  · simp only [available_scripts, h]
    rw [foldl_append_flatten (fun item =>
      item_block item (longest_text (get_import_names listing))) ds []]
    rw [List.nil_append, help_flatten]
  · intro l hl
    unfold help_listing_lines at hl
    simp only [List.mem_flatMap, List.mem_map] at hl
    obtain ⟨d, _, p, _, rfl⟩ := hl
    by_cases h0 : p.1 = 0 <;> simp [h0]

/-- Witness for claim C10's theorem: a directory holding `foo.py` whose
module has doc title `T`. -/
theorem available_scripts_format_witness :
    available_scripts envFoo listingFoo =
      .ok (((help_listing_lines listingFoo [⟨"foo".toList, "T".toList⟩]).map
        fun l => l ++ ['\n']).flatten) :=
  (available_scripts_format envFoo listingFoo [⟨"foo".toList, "T".toList⟩]
    (by decide)).1

end May

